import Mathlib

/-!
Verification of the `logging` package's `LoggerRegistry`
(`src/logging/registry.go`) against its natural-language specification.

The Go code is shallowly embedded: the registry state is a record holding
an association list for the `store` map, the configuration source (viper)
and the logger collaborator (logrus-backed, from the repository's
`logger.go`, which is not among the provided sources) are modelled from
the spec's collaborator contracts, and the Go standard library helpers
used by the registry (`strings.Split`, `strings.Join`, `strings.ToLower`,
`sort.Strings`) are given executable models restricted to what the
registry needs.
-/

set_option autoImplicit false

/-! ## Models of the Go standard library helpers used by registry.go -/

/-- Model of Go `strings.Split` for a one-character separator:
splits the character list at every occurrence of `sep`; the result always
has one more group than there are separators (`""` splits to `[""]`,
matching Go). -/
def splitChars (sep : Char) : List Char → List (List Char)
  | [] => [[]]
  | c :: rest =>
    match splitChars sep rest with
    | [] => [[c]]
    | g :: gs => if c == sep then [] :: g :: gs else (c :: g) :: gs

/-- Model of Go `strings.Split(s, sep)` with a single-character separator,
as used by `findLongestMatchingPath` (separator `"."`). -/
def goSplit (s : String) (sep : Char) : List String :=
  (splitChars sep s.data).map String.mk

/-- Model of Go `strings.Join(elems, sep)`. -/
def goJoin (elems : List String) (sep : String) : String :=
  match elems with
  | [] => ""
  | e :: rest => rest.foldl (fun acc x => acc ++ sep ++ x) e

/-- Model of Go `strings.ToLower` on a single character, restricted to
ASCII (all case examples in the spec are ASCII). -/
def lowerChar (c : Char) : Char :=
  if 65 ≤ c.toNat ∧ c.toNat ≤ 90 then Char.ofNat (c.toNat + 32) else c

/-- Model of Go `strings.ToLower`, restricted to ASCII case mapping. -/
def strToLower (s : String) : String :=
  String.mk (s.data.map lowerChar)

/-- Boolean lexicographic comparison of character lists by code point,
the order Go's `sort.Strings` uses on (ASCII) strings. -/
def charsLe : List Char → List Char → Bool
  | [], _ => true
  | _ :: _, [] => false
  | a :: as, b :: bs =>
    if a.toNat < b.toNat then true
    else if b.toNat < a.toNat then false
    else charsLe as bs

/-- Boolean string comparison underlying the `sort.Strings` model. -/
def strLe (a b : String) : Bool := charsLe a.data b.data

/-- Insert a string into a sorted list (auxiliary to `sortStrings`). -/
def insertSorted (s : String) : List String → List String
  | [] => [s]
  | x :: xs => if strLe s x then s :: x :: xs else x :: insertSorted s xs

/-- Model of Go `sort.Strings`: insertion sort by `strLe`.  The spec notes
the sort exists only for determinism, so any comparison sort is an
adequate model. -/
def sortStrings : List String → List String
  | [] => []
  | x :: xs => insertSorted x (sortStrings xs)

/-! ## A model of Go maps as association lists -/

/-- Lookup in an association list modelling a Go map (`m[k]` with the
comma-ok form: `none` means the key is absent). -/
def mapLookup {α : Type} (m : List (String × α)) (k : String) : Option α :=
  (m.find? (fun p => p.1 == k)).map Prod.snd

/-- Insertion into an association list modelling a Go map assignment
`m[k] = v`: replaces the binding when the key is present, appends
otherwise. -/
def mapInsert {α : Type} (m : List (String × α)) (k : String) (v : α) :
    List (String × α) :=
  match m with
  | [] => [(k, v)]
  | (k', v') :: rest =>
    if k' == k then (k, v) :: rest else (k', v') :: mapInsert rest k v

/-! ## Model of the configuration source (viper) -/

/-- Model of the `ConfigView` collaborator (`*viper.Viper`) through the
contract the registry uses (spec §6): `IsSet`, `InConfig`, `Sub`,
`AllKeys`, `GetString`.  A view is a bundle of these capabilities;
`empty` is the trivial view every capability of which is absent. -/
inductive ConfigView : Type where
  | empty : ConfigView
  | mk (isSet : String → Bool) (inConfig : String → Bool)
      (sub : String → ConfigView) (allKeys : List String)
      (getString : String → String) : ConfigView

/-- `IsSet`: whether a dotted key has a setting in this view. -/
def ConfigView.isSet : ConfigView → String → Bool
  | .empty, _ => false
  | .mk s _ _ _ _, k => s k

/-- `InConfig`: whether a dotted key is present in the config file. -/
def ConfigView.inConfig : ConfigView → String → Bool
  | .empty, _ => false
  | .mk _ c _ _ _, k => c k

/-- `Sub`: the sub-view rooted at a dotted key. -/
def ConfigView.sub : ConfigView → String → ConfigView
  | .empty, _ => .empty
  | .mk _ _ s _ _, k => s k

/-- `AllKeys`: the flattened leaf keys of this view (viper returns them
lowercased). -/
def ConfigView.allKeys : ConfigView → List String
  | .empty => []
  | .mk _ _ _ ks _ => ks

/-- `GetString`: the string value at a dotted key. -/
def ConfigView.getString : ConfigView → String → String
  | .empty, _ => ""
  | .mk _ _ _ _ g, k => g k

/-- Model of viper `SetDefault key dflt`: the key becomes set, and reads
of it fall back to `dflt` exactly when it was not already set (defaults
never overwrite explicitly present settings). -/
def ConfigView.withDefault (v : ConfigView) (key dflt : String) : ConfigView :=
  ConfigView.mk
    (fun k => k == key || v.isSet k)
    (fun k => v.inConfig k)
    (fun k => v.sub k)
    v.allKeys
    (fun k => if k == key && !v.isSet k then dflt else v.getString k)

/-- Modelled from the spec: `addLoggingDefaults` lives in the repository's
`logger.go`, which is not among the provided sources.  Per spec §4.4 it
fills recognized-but-absent settings (e.g. level, output target) with
process-level defaults and must not overwrite settings explicitly present
in the subtree; the concrete option set is declared an external concern,
so two representative options are used here. -/
def addLoggingDefaults (v : ConfigView) : ConfigView :=
  (v.withDefault "level" "info").withDefault "writer" "stderr"

/-! ## Model of the Logger collaborator and the registry -/

/-- Model of `logrus.Fields`: a map from field names to (string) values. -/
abbrev Fields := List (String × String)

/-- Modelled from the spec: the `Logger` collaborator (spec §2, §6) and
the repository's `newNamedLogger` (in `logger.go`, not among the provided
sources).  A logger is bound to a name, a context field map and a
configuration view.  For observability of the heap structure and of the
reload contract the model also carries `id` (allocation identity of the
logger), `fieldsId` (allocation identity of its field map: two loggers
share a field map exactly when their `fieldsId`s agree) and `configures`,
the log of arguments passed to `Configure`. -/
structure Logger where
  id : Nat
  name : String
  fieldsId : Nat
  fields : Fields
  config : Option ConfigView
  configures : List (Option ConfigView)

/-- Modelled from the spec: `Logger.Configure(settingsView)` re-applies
settings in place (spec §6, contract 1); the argument is a possibly-nil
`*viper.Viper`.  The model records the invocation and the new view. -/
def Logger.Configure (l : Logger) (cfg : Option ConfigView) : Logger :=
  { l with config := cfg, configures := l.configures ++ [cfg] }

/-- The `LoggerRegistry` state: the narrowed configuration view and the
`store` map (`registry.go` lines 20–24).  The mutex only serializes
access and has no pure-state content, so it is not modelled. -/
structure Registry where
  config : ConfigView
  store : List (String × Logger)

/-- Narrowing of the input view (`registry.go` lines 28–31): use the
`logging` section when the config has one, the whole view otherwise. -/
def narrowView (cfg : ConfigView) : ConfigView :=
  if cfg.inConfig "logging" then cfg.sub "logging" else cfg

/-- One iteration of the `NewRegistry` key loop (`registry.go` lines
41–61): copy the baseline context, pick the module's subtree (or the
narrowed view as fallback), fill defaults, set the `module` field to the
key — overridden by the subtree's `name` setting when present — and build
the logger.  `n` is the allocation counter for this iteration. -/
def mkLogger (c : ConfigView) (context : Fields) (k : String) (n : Nat) : Logger :=
  let v := addLoggingDefaults (if c.inConfig k then c.sub k else c)
  let fields0 := mapInsert context "module" k
  let fields :=
    if v.isSet "name" then mapInsert fields0 "module" (v.getString "name")
    else fields0
  { id := n, name := k, fieldsId := n, fields := fields,
    config := some v, configures := [] }

/-- The `NewRegistry` key loop (`registry.go` lines 41–62): insert one
logger per discovered key, threading the allocation counter. -/
def buildStore (c : ConfigView) (context : Fields) :
    List String → Nat → List (String × Logger) → List (String × Logger)
  | [], _, store => store
  | k :: rest, n, store =>
    buildStore c context rest (n + 1) (mapInsert store k (mkLogger c context k n))

/-- The synthetic root logger (`registry.go` lines 63–72): baseline
context plus `module` = the root name, bound to the whole narrowed view.
The store key is the root name verbatim (line 72 does not lowercase). -/
def rootLogger (c : ConfigView) (context : Fields) (rootName : String) : Logger :=
  { id := 0, name := rootName, fieldsId := 0,
    fields := mapInsert context "module" rootName,
    config := some c, configures := [] }

/-- `NewRegistry` (`registry.go` lines 27–76).  The mutable package-level
`RootName` global is modelled as the explicit argument `rootName`, read
at construction time (spec §9 endorses exactly this modelling). -/
def NewRegistry (cfg : ConfigView) (context : Fields) (rootName : String) : Registry :=
  let c := narrowView cfg
  let keys := c.allKeys
  let store := buildStore c context keys 0 []
  let store :=
    if keys.length == 0 then mapInsert store rootName (rootLogger c context rootName)
    else store
  { config := c, store := store }

/-- `GetOK` (`registry.go` lines 89–94): lowercase the name, then look it
up; `none` models the `(nil, false)` miss. -/
def Registry.GetOK (r : Registry) (name : String) : Option Logger :=
  mapLookup r.store (strToLower name)

/-- `Get` (`registry.go` lines 80–86): `GetOK` with the miss collapsed to
nil. -/
def Registry.Get (r : Registry) (name : String) : Option Logger :=
  match r.GetOK name with
  | some l => some l
  | none => none

/-- `Register` (`registry.go` lines 97–101): insert under the lowercased
path, overriding an existing key. -/
def Registry.Register (r : Registry) (path : String) (logger : Logger) : Registry :=
  { r with store := mapInsert r.store (strToLower path) logger }

/-- `Root` (`registry.go` lines 104–106): `Get` at the current value of
the `RootName` global, modelled as the explicit `rootName` argument read
at call time. -/
def Registry.Root (r : Registry) (rootName : String) : Option Logger :=
  r.Get rootName

/-- The loop of `findLongestMatchingPath` (`registry.go` lines 140–146):
try the joined prefix of the first `n` segments, longest first; `n = 0`
models falling off the loop (`return nil`). -/
def findMatchAux (cfg : ConfigView) (parts : List String) : Nat → Option ConfigView
  | 0 => none
  | n + 1 =>
    let k := goJoin (parts.take (n + 1)) "."
    if cfg.isSet k then some (cfg.sub k) else findMatchAux cfg parts n

/-- `findLongestMatchingPath` (`registry.go` lines 137–148): split the
path on `"."` and return the sub-view at the longest set prefix, `none`
(a nil `*viper.Viper`) when no prefix is set. -/
def findLongestMatchingPath (path : String) (cfg : ConfigView) : Option ConfigView :=
  let parts := goSplit path '.'
  findMatchAux cfg parts parts.length

/-- The apply loop of `Reload` (`registry.go` lines 129–134): for each
key, fetch the logger and, when the `configs` map has the key (comma-ok),
invoke `Configure` with the stored (possibly nil) view. -/
def reloadApply (configs : List (String × Option ConfigView)) :
    List String → List (String × Logger) → List (String × Logger)
  | [], store => store
  | k :: rest, store =>
    match mapLookup store k, mapLookup configs k with
    | some logger, some cfg => reloadApply configs rest (mapInsert store k (logger.Configure cfg))
    | _, _ => reloadApply configs rest store

/-- `Reload` (`registry.go` lines 109–135): snapshot and sort the store
keys, resolve each key's config via `findLongestMatchingPath` into the
`configs` map (note: the assignment `configs[key] = ...` inserts the key
even when the resolved view is nil), then run the apply loop. -/
def Registry.Reload (r : Registry) : Registry :=
  let keys := sortStrings (r.store.map Prod.fst)
  let configs : List (String × Option ConfigView) :=
    keys.map (fun key => (key, findLongestMatchingPath key r.config))
  { r with store := reloadApply configs keys r.store }

/-- The dot-separated prefixes of a path, shortest first: for
`"a.b.c"` these are `["a", "a.b", "a.b.c"]`. -/
def dotPrefixes (path : String) : List String :=
  let parts := goSplit path '.'
  (List.range parts.length).map (fun i => goJoin (parts.take (i + 1)) ".")

/-- A public registry operation, for stating invariants over arbitrary
call sequences (`Get`/`GetOK` do not change the state). -/
inductive RegOp : Type where
  | get (name : String) : RegOp
  | getOK (name : String) : RegOp
  | reg (path : String) (logger : Logger) : RegOp
  | reload : RegOp

/-- Apply one public operation to the registry state. -/
def applyOp (r : Registry) : RegOp → Registry
  | .get _ => r
  | .getOK _ => r
  | .reg path logger => r.Register path logger
  | .reload => r.Reload

/-- Apply a sequence of public operations to the registry state. -/
def applyOps (r : Registry) (ops : List RegOp) : Registry :=
  ops.foldl applyOp r

/-- All keys of a registry's store are ASCII-lowercase (fixed points of
the `strings.ToLower` model). -/
def LowerKeyed (r : Registry) : Prop :=
  ∀ k ∈ r.store.map Prod.fst, strToLower k = k

/-! ## Concrete fixtures used by witnesses and counterexamples -/

/-- A flat view: `setKeys` are the set keys, `keys` the enumerated leaf
keys; every sub-view is empty. -/
def flatView (setKeys : List String) (keys : List String) : ConfigView :=
  ConfigView.mk (fun k => setKeys.contains k) (fun _ => false)
    (fun _ => ConfigView.empty) keys (fun _ => "")

/-- A throwaway logger for exercising `Register`/`Reload`. -/
def dummyLogger : Logger :=
  { id := 100, name := "dummy", fieldsId := 100, fields := [],
    config := none, configures := [] }

/-- A second throwaway logger, distinguishable from `dummyLogger`. -/
def dummyLogger2 : Logger :=
  { id := 101, name := "dummy2", fieldsId := 101, fields := [],
    config := none, configures := [] }

/-- A registry whose single store key `"x"` has no set prefix in the
(empty) root configuration. -/
def unmatchedReg : Registry :=
  { config := ConfigView.empty, store := [("x", dummyLogger)] }

/-- A view with set sections at `"a"` and `"a.b.c"` but not `"a.b"`. -/
def gapView : ConfigView := flatView ["a", "a.b.c"] []

/-- A view declaring the three module keys `"a"`, `"a.b"`, `"c"`. -/
def threeKeyView : ConfigView := flatView [] ["a", "a.b", "c"]

/-- A view declaring no module keys at all. -/
def noKeyView : ConfigView := flatView [] []

/-- A view declaring the two module keys `"m1"` and `"m2"`. -/
def twoKeyView : ConfigView := flatView [] ["m1", "m2"]

/-- A registry with an empty store over the empty view. -/
def emptyReg : Registry := { config := ConfigView.empty, store := [] }

/-! ## Lemmas about the map model -/

theorem mapLookup_cons {α : Type} (k' k : String) (v' : α) (rest : List (String × α)) :
    mapLookup ((k', v') :: rest) k = if k' == k then some v' else mapLookup rest k := by
  cases h : (k' == k) <;> simp [mapLookup, h]

theorem mapLookup_mapInsert_self {α : Type} (m : List (String × α)) (k : String) (v : α) :
    mapLookup (mapInsert m k v) k = some v := by
  induction m with
  | nil => simp [mapInsert, mapLookup_cons]
  | cons p rest ih =>
    obtain ⟨k', v'⟩ := p
    by_cases h : (k' == k) = true
    · simp [mapInsert, h, mapLookup_cons]
    · simp only [mapInsert, h]
      rw [if_neg (by simp [h]), mapLookup_cons, if_neg (by simp [h]), ih]

theorem mapLookup_mapInsert_ne {α : Type} (m : List (String × α)) (k k₂ : String) (v : α)
    (h : k₂ ≠ k) : mapLookup (mapInsert m k v) k₂ = mapLookup m k₂ := by
  have hb : (k == k₂) = false := beq_eq_false_iff_ne.mpr (Ne.symm h)
  induction m with
  | nil => simp [mapInsert, mapLookup_cons, hb]
  | cons p rest ih =>
    obtain ⟨k', v'⟩ := p
    by_cases h2 : (k' == k) = true
    · have hk : k' = k := by simpa using h2
      subst hk
      simp [mapInsert, mapLookup_cons, hb]
    · simp only [mapInsert, h2]
      rw [if_neg (by simp_all), mapLookup_cons, mapLookup_cons, ih]

theorem mapLookup_mem_fst {α : Type} {m : List (String × α)} {k : String} {v : α}
    (h : mapLookup m k = some v) : k ∈ m.map Prod.fst := by
  induction m with
  | nil => simp [mapLookup] at h
  | cons p rest ih =>
    obtain ⟨k', v'⟩ := p
    rw [mapLookup_cons] at h
    by_cases hb : (k' == k) = true
    · simp only [List.map_cons, List.mem_cons]
      exact Or.inl (show k' = k by simpa using hb).symm
    · rw [if_neg hb] at h
      simp only [List.map_cons, List.mem_cons]
      exact Or.inr (ih h)

theorem mapInsert_map_fst_of_mem {α : Type} (m : List (String × α)) (k : String) (v : α)
    (h : k ∈ m.map Prod.fst) : (mapInsert m k v).map Prod.fst = m.map Prod.fst := by
  induction m with
  | nil => simp at h
  | cons p rest ih =>
    obtain ⟨k', v'⟩ := p
    by_cases hb : (k' == k) = true
    · have hk : k' = k := by simpa using hb
      subst hk
      simp [mapInsert, hb]
    · have hk : k' ≠ k := by simpa using hb
      have hmem : k ∈ rest.map Prod.fst := by
        rcases (show k = k' ∨ k ∈ rest.map Prod.fst by simpa using h) with h1 | h1
        · exact absurd h1.symm hk
        · exact h1
      simp [mapInsert, hb, ih hmem]

theorem mem_map_fst_mapInsert {α : Type} (m : List (String × α)) (k k₂ : String) (v : α)
    (h : k₂ ∈ (mapInsert m k v).map Prod.fst) : k₂ ∈ m.map Prod.fst ∨ k₂ = k := by
  induction m with
  | nil =>
    right
    simpa [mapInsert] using h
  | cons p rest ih =>
    obtain ⟨k', v'⟩ := p
    by_cases hb : (k' == k) = true
    · rw [show mapInsert ((k', v') :: rest) k v = (k, v) :: rest by simp [mapInsert, hb]] at h
      rcases (show k₂ = k ∨ k₂ ∈ rest.map Prod.fst by simpa using h) with h1 | h1
      · exact Or.inr h1
      · exact Or.inl (by simp [h1])
    · rw [show mapInsert ((k', v') :: rest) k v = (k', v') :: mapInsert rest k v by
        simp [mapInsert, hb]] at h
      rcases (show k₂ = k' ∨ k₂ ∈ (mapInsert rest k v).map Prod.fst by simpa using h) with h1 | h1
      · exact Or.inl (by simp [h1])
      · rcases ih h1 with h2 | h2
        · exact Or.inl (by simp [h2])
        · exact Or.inr h2

/-! ## Lemmas about the sort model -/

theorem perm_insertSorted (s : String) (l : List String) :
    List.Perm (insertSorted s l) (s :: l) := by
  induction l with
  | nil => exact List.Perm.refl _
  | cons x xs ih =>
    by_cases h : strLe s x = true
    · simp [insertSorted, h]
    · simp only [insertSorted, h]
      rw [if_neg (by simp [h])]
      exact ((ih.cons x).trans (List.Perm.swap s x xs))

theorem perm_sortStrings (l : List String) : List.Perm (sortStrings l) l := by
  induction l with
  | nil => exact List.Perm.refl _
  | cons x xs ih =>
    exact (perm_insertSorted x (sortStrings xs)).trans (ih.cons x)

theorem mem_sortStrings {a : String} {l : List String} :
    a ∈ sortStrings l ↔ a ∈ l :=
  (perm_sortStrings l).mem_iff

/-! ## Lemmas about the ToLower model -/

theorem charToNat_ofNat {n : Nat} (h : n.isValidChar) : (Char.ofNat n).toNat = n := by
  simp only [Char.ofNat, dif_pos h]
  simp [Char.ofNatAux, Char.toNat, UInt32.toNat]

theorem lowerChar_idem (c : Char) : lowerChar (lowerChar c) = lowerChar c := by
  by_cases h : 65 ≤ c.toNat ∧ c.toNat ≤ 90
  · have hv : Nat.isValidChar (c.toNat + 32) := Or.inl (by omega)
    have h1 : lowerChar c = Char.ofNat (c.toNat + 32) := by
      simp only [lowerChar]
      rw [if_pos h]
    have ht : (Char.ofNat (c.toNat + 32)).toNat = c.toNat + 32 := charToNat_ofNat hv
    rw [h1]
    simp only [lowerChar]
    rw [if_neg (by rw [ht]; omega)]
  · simp only [lowerChar]
    rw [if_neg h, if_neg h]

theorem strToLower_idem (s : String) : strToLower (strToLower s) = strToLower s := by
  simp only [strToLower]
  congr 1
  show (s.data.map lowerChar).map lowerChar = s.data.map lowerChar
  rw [List.map_map]
  exact List.map_congr_left (fun a _ => lowerChar_idem a)

/-! ## Lemmas about path resolution -/

theorem findMatchAux_eq_find (cfg : ConfigView) (parts : List String) :
    ∀ n, findMatchAux cfg parts n =
      (((List.range n).reverse.map (fun i => goJoin (parts.take (i + 1)) ".")).find?
        (fun p => cfg.isSet p)).map (fun p => cfg.sub p) := by
  intro n
  induction n with
  | zero => simp [findMatchAux]
  | succ n ih =>
    rw [List.range_succ]
    cases h : cfg.isSet (goJoin (parts.take (n + 1)) ".") with
    | true => simp [findMatchAux, h]
    | false => simp [findMatchAux, h, ih]

theorem findLongestMatchingPath_eq_find (path : String) (cfg : ConfigView) :
    findLongestMatchingPath path cfg =
      ((dotPrefixes path).reverse.find? (fun p => cfg.isSet p)).map
        (fun p => cfg.sub p) := by
  simp only [findLongestMatchingPath, dotPrefixes]
  rw [findMatchAux_eq_find, List.map_reverse]

theorem findLongestMatchingPath_eq_none {path : String} {cfg : ConfigView}
    (h : ∀ p ∈ dotPrefixes path, cfg.isSet p = false) :
    findLongestMatchingPath path cfg = none := by
  rw [findLongestMatchingPath_eq_find]
  rw [List.find?_eq_none.mpr]
  · rfl
  · intro p hp
    simp [h p (List.mem_reverse.mp hp)]

/-! ## Lemmas about the reload apply loop -/

theorem reloadApply_map_fst (configs : List (String × Option ConfigView))
    (keys : List String) :
    ∀ store, (reloadApply configs keys store).map Prod.fst = store.map Prod.fst := by
  induction keys with
  | nil => intro store; rfl
  | cons k rest ih =>
    intro store
    simp only [reloadApply]
    cases hs : mapLookup store k with
    | none => cases hc : mapLookup configs k <;> simp [ih]
    | some logger =>
      cases hc : mapLookup configs k with
      | none => simp [ih]
      | some cfg =>
        rw [ih]
        exact mapInsert_map_fst_of_mem _ _ _ (mapLookup_mem_fst hs)

theorem reloadApply_lookup_id (configs : List (String × Option ConfigView))
    (keys : List String) :
    ∀ store x, (mapLookup (reloadApply configs keys store) x).map Logger.id =
      (mapLookup store x).map Logger.id := by
  induction keys with
  | nil => intro store x; rfl
  | cons k rest ih =>
    intro store x
    simp only [reloadApply]
    cases hs : mapLookup store k with
    | none => cases hc : mapLookup configs k <;> simp [ih]
    | some logger =>
      cases hc : mapLookup configs k with
      | none => simp [ih]
      | some cfg =>
        rw [ih]
        by_cases hx : x = k
        · subst hx
          rw [mapLookup_mapInsert_self, hs]
          rfl
        · rw [mapLookup_mapInsert_ne _ _ _ _ hx]

theorem Reload_map_fst (r : Registry) :
    (r.Reload).store.map Prod.fst = r.store.map Prod.fst := by
  simp only [Registry.Reload]
  exact reloadApply_map_fst _ _ _

theorem Reload_lookup_id (r : Registry) (x : String) :
    (mapLookup (r.Reload).store x).map Logger.id =
      (mapLookup r.store x).map Logger.id := by
  simp only [Registry.Reload]
  exact reloadApply_lookup_id _ _ _ _

/-! ## Lemmas about the construction loop -/

theorem buildStore_map_fst_mem (c : ConfigView) (ctx : Fields) (keys : List String) :
    ∀ n store k, k ∈ (buildStore c ctx keys n store).map Prod.fst →
      k ∈ store.map Prod.fst ∨ k ∈ keys := by
  induction keys with
  | nil => intro n store k h; exact Or.inl h
  | cons k₀ rest ih =>
    intro n store k h
    rcases ih (n + 1) (mapInsert store k₀ (mkLogger c ctx k₀ n)) k h with h1 | h1
    · rcases mem_map_fst_mapInsert _ _ _ _ h1 with h2 | h2
      · exact Or.inl h2
      · exact Or.inr (by simp [h2])
    · exact Or.inr (by simp [h1])

theorem buildStore_lookup_not_mem (c : ConfigView) (ctx : Fields) (keys : List String) :
    ∀ n store k, k ∉ keys →
      mapLookup (buildStore c ctx keys n store) k = mapLookup store k := by
  induction keys with
  | nil => intro n store k _; rfl
  | cons k₀ rest ih =>
    intro n store k h
    have h1 : k ≠ k₀ := fun he => h (by simp [he])
    have h2 : k ∉ rest := fun he => h (by simp [he])
    rw [show buildStore c ctx (k₀ :: rest) n store =
      buildStore c ctx rest (n + 1) (mapInsert store k₀ (mkLogger c ctx k₀ n)) from rfl]
    rw [ih _ _ _ h2, mapLookup_mapInsert_ne _ _ _ _ h1]

theorem buildStore_lookup_mem (c : ConfigView) (ctx : Fields) (keys : List String) :
    ∀ n store k, keys.Nodup → k ∈ keys →
      mapLookup (buildStore c ctx keys n store) k =
        some (mkLogger c ctx k (n + keys.indexOf k)) := by
  induction keys with
  | nil => intro n store k _ h; simp at h
  | cons k₀ rest ih =>
    intro n store k hnd hmem
    rw [show buildStore c ctx (k₀ :: rest) n store =
      buildStore c ctx rest (n + 1) (mapInsert store k₀ (mkLogger c ctx k₀ n)) from rfl]
    by_cases he : k = k₀
    · subst he
      have hk : k ∉ rest := (List.nodup_cons.mp hnd).1
      rw [buildStore_lookup_not_mem c ctx rest _ _ _ hk, mapLookup_mapInsert_self]
      rw [List.indexOf_cons_self, Nat.add_zero]
    · have hmem2 : k ∈ rest := by
        rcases List.mem_cons.mp hmem with h1 | h1
        · exact absurd h1 he
        · exact h1
      rw [ih _ _ _ (List.nodup_cons.mp hnd).2 hmem2]
      rw [List.indexOf_cons_ne _ (Ne.symm he)]
      rw [show n + 1 + List.indexOf k rest = n + Nat.succ (List.indexOf k rest) by omega]

/-! ## Lemmas about construction and the logger fields -/

theorem mkLogger_fields_module (c : ConfigView) (ctx : Fields) (k : String) (n : Nat) :
    mapLookup (mkLogger c ctx k n).fields "module" =
      some
        (if (addLoggingDefaults (if c.inConfig k then c.sub k else c)).isSet "name"
          then (addLoggingDefaults (if c.inConfig k then c.sub k else c)).getString "name"
          else k) := by
  simp only [mkLogger]
  by_cases h :
      (addLoggingDefaults (if c.inConfig k then c.sub k else c)).isSet "name" = true
  · rw [if_pos h, if_pos h, mapLookup_mapInsert_self]
  · rw [if_neg h, if_neg h, mapLookup_mapInsert_self]

theorem mkLogger_fields_other (c : ConfigView) (ctx : Fields) (k : String) (n : Nat)
    (f : String) (hf : f ≠ "module") :
    mapLookup (mkLogger c ctx k n).fields f = mapLookup ctx f := by
  simp only [mkLogger]
  by_cases h :
      (addLoggingDefaults (if c.inConfig k then c.sub k else c)).isSet "name" = true
  · rw [if_pos h, mapLookup_mapInsert_ne _ _ _ _ hf, mapLookup_mapInsert_ne _ _ _ _ hf]
  · rw [if_neg h, mapLookup_mapInsert_ne _ _ _ _ hf]

theorem mkLogger_fieldsId (c : ConfigView) (ctx : Fields) (k : String) (n : Nat) :
    (mkLogger c ctx k n).fieldsId = n := rfl

theorem mkLogger_id (c : ConfigView) (ctx : Fields) (k : String) (n : Nat) :
    (mkLogger c ctx k n).id = n := rfl

theorem NewRegistry_store_of_nil (cfg : ConfigView) (ctx : Fields) (rootName : String)
    (h : (narrowView cfg).allKeys = []) :
    (NewRegistry cfg ctx rootName).store =
      [(rootName, rootLogger (narrowView cfg) ctx rootName)] := by
  simp only [NewRegistry]
  rw [h]
  rfl

theorem NewRegistry_store_of_ne_nil (cfg : ConfigView) (ctx : Fields) (rootName : String)
    (h : (narrowView cfg).allKeys ≠ []) :
    (NewRegistry cfg ctx rootName).store =
      buildStore (narrowView cfg) ctx (narrowView cfg).allKeys 0 [] := by
  simp only [NewRegistry]
  cases hks : (narrowView cfg).allKeys with
  | nil => exact absurd hks h
  | cons a rest => rfl

theorem NewRegistry_lowerKeyed (cfg : ConfigView) (ctx : Fields) (rootName : String)
    (hkeys : ∀ k ∈ (narrowView cfg).allKeys, strToLower k = k)
    (hroot : (narrowView cfg).allKeys = [] → strToLower rootName = rootName) :
    LowerKeyed (NewRegistry cfg ctx rootName) := by
  intro k hk
  cases hks : (narrowView cfg).allKeys with
  | nil =>
    rw [NewRegistry_store_of_nil cfg ctx rootName hks] at hk
    have : k = rootName := by simpa using hk
    rw [this]
    exact hroot hks
  | cons a rest =>
    rw [NewRegistry_store_of_ne_nil cfg ctx rootName (by rw [hks]; simp)] at hk
    rcases buildStore_map_fst_mem _ _ _ _ _ _ hk with h1 | h1
    · simp at h1
    · exact hkeys k h1

theorem applyOp_lowerKeyed (r : Registry) (hr : LowerKeyed r) (op : RegOp) :
    LowerKeyed (applyOp r op) := by
  cases op with
  | get _ => exact hr
  | getOK _ => exact hr
  | reg p lg =>
    intro k hk
    simp only [applyOp, Registry.Register] at hk
    rcases mem_map_fst_mapInsert _ _ _ _ hk with h1 | h1
    · exact hr k h1
    · rw [h1]
      exact strToLower_idem p
  | reload =>
    intro k hk
    simp only [applyOp] at hk
    rw [Reload_map_fst] at hk
    exact hr k hk

theorem applyOps_lowerKeyed (ops : List RegOp) :
    ∀ r, LowerKeyed r → LowerKeyed (applyOps r ops) := by
  induction ops with
  | nil => intro r hr; exact hr
  | cons op rest ih =>
    intro r hr
    exact ih _ (applyOp_lowerKeyed r hr op)

/-! ## The claims -/

/-- Claim C1, evaluated at the failing input.  The claim states that for a
registered key none of whose dot-separated prefixes is set, `Reload` does
not invoke that logger's `Configure` at all.  The code does invoke it:
`configs[key] = findLongestMatchingPath(key, r.config)` stores the key
with a nil view, so the comma-ok guard at line 131 is always true and
`Configure(nil)` runs.  Here the store holds key `"x"`, no prefix of
`"x"` is set, and after `Reload` the logger's `Configure` log is exactly
one invocation with the nil view. -/
theorem claim1_configure_invoked_on_unmatched :
    (∀ p ∈ dotPrefixes "x", unmatchedReg.config.isSet p = false)
    ∧ (mapLookup (unmatchedReg.Reload).store "x").map Logger.configures =
        some [none] := by
  constructor
  · decide
  · rfl

/-- Claim C2: `Reload`'s path resolution splits the key on `'.'` and
tests prefixes from the full segment sequence shrinking one segment at a
time from the right, returning the sub-view at the first (longest) set
prefix; with sections set at `"a"` and `"a.b.c"` but not `"a.b"`, key
`"a.b.c.d"` resolves to the `"a.b.c"` subtree and key `"a.b"` to the
`"a"` subtree; when no prefix down to the first segment is set,
resolution yields no match. -/
theorem claim2_longest_match (cfg : ConfigView)
    (ha : cfg.isSet "a" = true) (habc : cfg.isSet "a.b.c" = true)
    (hab : cfg.isSet "a.b" = false) (habcd : cfg.isSet "a.b.c.d" = false) :
    (∀ path, findLongestMatchingPath path cfg =
      ((dotPrefixes path).reverse.find? (fun p => cfg.isSet p)).map
        (fun p => cfg.sub p))
    ∧ findLongestMatchingPath "a.b.c.d" cfg = some (cfg.sub "a.b.c")
    ∧ findLongestMatchingPath "a.b" cfg = some (cfg.sub "a")
    ∧ (∀ path, (∀ p ∈ dotPrefixes path, cfg.isSet p = false) →
        findLongestMatchingPath path cfg = none) := by
  refine ⟨fun path => findLongestMatchingPath_eq_find path cfg, ?_, ?_,
    fun path h => findLongestMatchingPath_eq_none h⟩
  · rw [findLongestMatchingPath_eq_find,
      show dotPrefixes "a.b.c.d" = ["a", "a.b", "a.b.c", "a.b.c.d"] from rfl]
    simp [habcd, habc]
  · rw [findLongestMatchingPath_eq_find,
      show dotPrefixes "a.b" = ["a", "a.b"] from rfl]
    simp [hab, ha]

/-- Witness for claim C2 at the concrete view with sections set at
`"a"` and `"a.b.c"` only. -/
theorem claim2_witness :
    findLongestMatchingPath "a.b.c.d" gapView = some (gapView.sub "a.b.c")
    ∧ findLongestMatchingPath "a.b" gapView = some (gapView.sub "a")
    ∧ findLongestMatchingPath "x.y" gapView = none := by
  obtain ⟨-, h2, h3, h4⟩ :=
    claim2_longest_match gapView (by decide) (by decide) (by decide) (by decide)
  exact ⟨h2, h3, h4 "x.y" (by decide)⟩

/-- Claim C3: with modules `{a, a.b, c}` declared, `NewRegistry` builds a
store whose keys are exactly `"a"`, `"a.b"`, `"c"`, each bound to a
distinct logger instance. -/
theorem claim3_three_modules (cfg : ConfigView) (ctx : Fields) (rootName : String)
    (h : (narrowView cfg).allKeys = ["a", "a.b", "c"]) :
    (NewRegistry cfg ctx rootName).store.map Prod.fst = ["a", "a.b", "c"]
    ∧ ∃ la lab lc,
        mapLookup (NewRegistry cfg ctx rootName).store "a" = some la
        ∧ mapLookup (NewRegistry cfg ctx rootName).store "a.b" = some lab
        ∧ mapLookup (NewRegistry cfg ctx rootName).store "c" = some lc
        ∧ la.id ≠ lab.id ∧ la.id ≠ lc.id ∧ lab.id ≠ lc.id := by
  have hs : (NewRegistry cfg ctx rootName).store =
      buildStore (narrowView cfg) ctx ["a", "a.b", "c"] 0 [] := by
    rw [NewRegistry_store_of_ne_nil cfg ctx rootName (by rw [h]; simp), h]
  rw [hs]
  exact ⟨rfl, mkLogger (narrowView cfg) ctx "a" 0, mkLogger (narrowView cfg) ctx "a.b" 1,
    mkLogger (narrowView cfg) ctx "c" 2, rfl, rfl, rfl, by simp [mkLogger_id],
    by simp [mkLogger_id], by simp [mkLogger_id]⟩

/-- Witness for claim C3 at a concrete view declaring exactly the keys
`["a", "a.b", "c"]`. -/
theorem claim3_witness :
    (NewRegistry threeKeyView [] "root").store.map Prod.fst = ["a", "a.b", "c"]
    ∧ ∃ la lab lc,
        mapLookup (NewRegistry threeKeyView [] "root").store "a" = some la
        ∧ mapLookup (NewRegistry threeKeyView [] "root").store "a.b" = some lab
        ∧ mapLookup (NewRegistry threeKeyView [] "root").store "c" = some lc
        ∧ la.id ≠ lab.id ∧ la.id ≠ lc.id ∧ lab.id ≠ lc.id :=
  claim3_three_modules threeKeyView [] "root" rfl

/-- Counterexample to claim C4 as stated: with zero discovered module
keys and the root name set to `"Root"`, construction stores the key
`"Root"` verbatim (line 72 does not lowercase), which is not a lowercase
string. -/
theorem claim4_counterexample :
    (NewRegistry noKeyView [] "Root").store.map Prod.fst = ["Root"]
    ∧ strToLower "Root" ≠ "Root" := by
  constructor
  · rfl
  · decide

/-- Claim C4 as amended: `GetOK` and `Register` do normalize their
argument to lowercase before accessing the map, and every store key is a
lowercase string after construction and after any sequence of `Get`,
`GetOK`, `Register` and `Reload` calls — provided the keys enumerated by
`AllKeys` are lowercase (viper guarantees this) and, when the
zero-module synthetic-root branch runs, the root name is lowercase (the
synthetic insertion uses it verbatim). -/
theorem claim4_amended (cfg : ConfigView) (ctx : Fields) (rootName : String)
    (ops : List RegOp) (r : Registry) (name path : String) (l : Logger)
    (hkeys : ∀ k ∈ (narrowView cfg).allKeys, strToLower k = k)
    (hroot : (narrowView cfg).allKeys = [] → strToLower rootName = rootName) :
    LowerKeyed (applyOps (NewRegistry cfg ctx rootName) ops)
    ∧ r.GetOK name = mapLookup r.store (strToLower name)
    ∧ (r.Register path l).store = mapInsert r.store (strToLower path) l :=
  ⟨applyOps_lowerKeyed ops _ (NewRegistry_lowerKeyed cfg ctx rootName hkeys hroot),
    rfl, rfl⟩

/-- Witness for the amended claim C4: two declared lowercase modules, a
mixed-case `Register`, and a `Reload`. -/
theorem claim4_amended_witness :
    LowerKeyed (applyOps (NewRegistry twoKeyView [] "root")
      [RegOp.reg "X" dummyLogger, RegOp.reload])
    ∧ emptyReg.GetOK "Foo.Bar" = mapLookup emptyReg.store (strToLower "Foo.Bar")
    ∧ (emptyReg.Register "Foo.Bar" dummyLogger).store =
        mapInsert emptyReg.store (strToLower "Foo.Bar") dummyLogger :=
  claim4_amended twoKeyView [] "root" [RegOp.reg "X" dummyLogger, RegOp.reload]
    emptyReg "Foo.Bar" "Foo.Bar" dummyLogger (by decide) (by decide)

/-- Claim C5: with zero declared module keys, `NewRegistry` produces a
store with exactly one entry whose key is the current root name, backed
by the whole narrowed view, with the `module` context field equal to the
root name over an otherwise untouched copy of the baseline context. -/
theorem claim5_root_synthesis (cfg : ConfigView) (ctx : Fields) (rootName : String)
    (h : (narrowView cfg).allKeys = []) :
    (NewRegistry cfg ctx rootName).store =
      [(rootName, rootLogger (narrowView cfg) ctx rootName)]
    ∧ (rootLogger (narrowView cfg) ctx rootName).config = some (narrowView cfg)
    ∧ mapLookup (rootLogger (narrowView cfg) ctx rootName).fields "module" =
        some rootName
    ∧ ∀ f, f ≠ "module" →
        mapLookup (rootLogger (narrowView cfg) ctx rootName).fields f =
          mapLookup ctx f := by
  refine ⟨NewRegistry_store_of_nil cfg ctx rootName h, rfl, ?_, ?_⟩
  · exact mapLookup_mapInsert_self _ _ _
  · intro f hf
    exact mapLookup_mapInsert_ne _ _ _ _ hf

/-- Witness for claim C5 at a concrete view with no declared modules. -/
theorem claim5_witness :
    (NewRegistry noKeyView [("app", "demo")] "root").store =
      [("root", rootLogger (narrowView noKeyView) [("app", "demo")] "root")]
    ∧ (rootLogger (narrowView noKeyView) [("app", "demo")] "root").config =
        some (narrowView noKeyView)
    ∧ mapLookup (rootLogger (narrowView noKeyView) [("app", "demo")] "root").fields
        "module" = some "root"
    ∧ ∀ f, f ≠ "module" →
        mapLookup (rootLogger (narrowView noKeyView) [("app", "demo")] "root").fields f =
          mapLookup [("app", "demo")] f :=
  claim5_root_synthesis noKeyView [("app", "demo")] "root" rfl

/-- Claim C6: `Reload` never adds or removes store entries — the key
list of the store is unchanged and each key remains bound to the same
logger instance (same allocation identity); `Reload` only invokes
`Configure` on existing instances. -/
theorem claim6_reload_frame (r : Registry) :
    (r.Reload).store.map Prod.fst = r.store.map Prod.fst
    ∧ ∀ k, (mapLookup (r.Reload).store k).map Logger.id =
        (mapLookup r.store k).map Logger.id :=
  ⟨Reload_map_fst r, fun k => Reload_lookup_id r k⟩

/-- Claim C7: `Register` followed by `GetOK` round-trips
case-insensitively — after `Register(path, l)`, `GetOK(name)` returns
`l` for every `name` equal to `path` up to ASCII case, and a subsequent
`Register` on the same path up to case replaces the entry. -/
theorem claim7_register_roundtrip (r : Registry) (l l₂ : Logger)
    (path path₂ name : String)
    (h : strToLower name = strToLower path)
    (h₂ : strToLower path₂ = strToLower path) :
    (r.Register path l).GetOK name = some l
    ∧ ((r.Register path l).Register path₂ l₂).GetOK name = some l₂ := by
  constructor
  · simp only [Registry.GetOK, Registry.Register]
    rw [h, mapLookup_mapInsert_self]
  · simp only [Registry.GetOK, Registry.Register]
    rw [h, h₂, mapLookup_mapInsert_self]

/-- Witness for claim C7: `Register("X", l)` then `GetOK("x")`, then a
replacing `Register("x", l2)`. -/
theorem claim7_witness :
    (emptyReg.Register "X" dummyLogger).GetOK "x" = some dummyLogger
    ∧ ((emptyReg.Register "X" dummyLogger).Register "x" dummyLogger2).GetOK "x" =
        some dummyLogger2 :=
  claim7_register_roundtrip emptyReg dummyLogger dummyLogger2 "X" "x" "x"
    (by decide) (by decide)

/-- Claim C8: every discovered module key gets a logger whose context is
a fresh copy of the baseline extended with `module` = the key (overridden
by the subtree's `name` value when set), and no two module loggers share
a field map (their field-map allocation identities differ). -/
theorem claim8_fresh_context (cfg : ConfigView) (ctx : Fields) (rootName : String)
    (k : String) (hnd : (narrowView cfg).allKeys.Nodup)
    (hk : k ∈ (narrowView cfg).allKeys) :
    ∃ l, mapLookup (NewRegistry cfg ctx rootName).store k = some l
      ∧ mapLookup l.fields "module" =
          some
            (if (addLoggingDefaults
                (if (narrowView cfg).inConfig k then (narrowView cfg).sub k
                  else narrowView cfg)).isSet "name"
              then (addLoggingDefaults
                (if (narrowView cfg).inConfig k then (narrowView cfg).sub k
                  else narrowView cfg)).getString "name"
              else k)
      ∧ (∀ f, f ≠ "module" → mapLookup l.fields f = mapLookup ctx f)
      ∧ ∀ k₂ l₂, k₂ ∈ (narrowView cfg).allKeys → k₂ ≠ k →
          mapLookup (NewRegistry cfg ctx rootName).store k₂ = some l₂ →
          l₂.fieldsId ≠ l.fieldsId := by
  have hne : (narrowView cfg).allKeys ≠ [] := by
    intro he
    rw [he] at hk
    simp at hk
  rw [NewRegistry_store_of_ne_nil cfg ctx rootName hne]
  refine ⟨mkLogger (narrowView cfg) ctx k (0 + (narrowView cfg).allKeys.indexOf k),
    buildStore_lookup_mem _ _ _ _ _ _ hnd hk,
    mkLogger_fields_module _ _ _ _,
    fun f hf => mkLogger_fields_other _ _ _ _ f hf,
    ?_⟩
  intro k₂ l₂ hk₂ hne₂ hlook
  rw [buildStore_lookup_mem _ _ _ _ _ _ hnd hk₂, Option.some_inj] at hlook
  rw [← hlook, mkLogger_fieldsId, mkLogger_fieldsId]
  intro heq
  exact hne₂ ((List.indexOf_inj hk₂ hk).mp (by omega))

/-- Witness for claim C8 at a concrete view declaring two modules. -/
theorem claim8_witness :
    ∃ l, mapLookup (NewRegistry twoKeyView [] "root").store "m1" = some l
      ∧ mapLookup l.fields "module" =
          some
            (if (addLoggingDefaults
                (if (narrowView twoKeyView).inConfig "m1"
                  then (narrowView twoKeyView).sub "m1"
                  else narrowView twoKeyView)).isSet "name"
              then (addLoggingDefaults
                (if (narrowView twoKeyView).inConfig "m1"
                  then (narrowView twoKeyView).sub "m1"
                  else narrowView twoKeyView)).getString "name"
              else "m1")
      ∧ (∀ f, f ≠ "module" → mapLookup l.fields f = mapLookup ([] : Fields) f)
      ∧ ∀ k₂ l₂, k₂ ∈ (narrowView twoKeyView).allKeys → k₂ ≠ "m1" →
          mapLookup (NewRegistry twoKeyView [] "root").store k₂ = some l₂ →
          l₂.fieldsId ≠ l.fieldsId :=
  claim8_fresh_context twoKeyView [] "root" "m1" (by decide) (by decide)

/-- Claim C10: when the root name is not its own lowercase form and no
module keys are discovered, the synthetic root logger is stored under
the literal root name, yet `GetOK(RootName)` misses (lookup lowercases
first) and `Root()` returns nil. -/
theorem claim10_rootname_case (cfg : ConfigView) (ctx : Fields) (rootName : String)
    (hempty : (narrowView cfg).allKeys = [])
    (hcase : strToLower rootName ≠ rootName) :
    (NewRegistry cfg ctx rootName).GetOK rootName = none
    ∧ (NewRegistry cfg ctx rootName).Root rootName = none
    ∧ mapLookup (NewRegistry cfg ctx rootName).store rootName =
        some (rootLogger (narrowView cfg) ctx rootName) := by
  have hs := NewRegistry_store_of_nil cfg ctx rootName hempty
  have hget : (NewRegistry cfg ctx rootName).GetOK rootName = none := by
    simp only [Registry.GetOK]
    rw [hs, mapLookup_cons,
      if_neg (by simp [beq_eq_false_iff_ne.mpr (Ne.symm hcase)])]
    rfl
  refine ⟨hget, ?_, ?_⟩
  · simp only [Registry.Root, Registry.Get, hget]
  · rw [hs, mapLookup_cons, if_pos (by simp)]

/-- Witness for claim C10 with the root name `"Root"`. -/
theorem claim10_witness :
    (NewRegistry noKeyView [] "Root").GetOK "Root" = none
    ∧ (NewRegistry noKeyView [] "Root").Root "Root" = none
    ∧ mapLookup (NewRegistry noKeyView [] "Root").store "Root" =
        some (rootLogger (narrowView noKeyView) [] "Root") :=
  claim10_rootname_case noKeyView [] "Root" rfl (by decide)
